import Mathlib

/-!
Verification of the OralFeedback prototype (client-side transcript analyzer,
audio feature estimator, and the two serverless handlers).

Modelling conventions:
- JS strings are modelled as `List Char` (`Str`); `String.toLowerCase` is
  `Char.toLower` mapped over the list (the data here is ASCII).
- JS numbers are modelled as exact rationals `ℚ`; `Math.round x` is
  `⌊x + 1/2⌋` (round half toward +∞, which is exactly JS `Math.round`),
  `Math.max` is `max`.  The one use of `Math.sqrt` (frame RMS) only feeds the
  comparison `sqrt (sumSq / n) < 0.01`, which is encoded by the equivalent
  squared comparison `sumSq * 10000 < n` (both sides nonnegative).
- The mutable global vocabulary set (`window.__ACADEMIC_SET__`) is modelled by
  explicit state passing: the analyzer takes the current set and returns the
  grown set; JS `Set` insertion order is kept by representing it as a `List`
  used only through membership.
- Fallible/absent results are `Option`.
-/

namespace OralFeedback

abbrev Str := List Char

/-- Whitespace characters relevant to JS `\s`, `String.prototype.trim` and
`split(/\s+/)` for the ASCII data handled here. -/
def isWs (c : Char) : Bool :=
  decide (c = ' ' ∨ c = '\t' ∨ c = '\n' ∨ c = '\r' ∨ c = '\x0b' ∨ c = '\x0c')

/-- JS `String.prototype.trim` (App.jsx line 275). -/
def trim (s : Str) : Str :=
  ((s.dropWhile isWs).reverse.dropWhile isWs).reverse

/-- JS `text.replace(/\n/g, " ")` (App.jsx line 275). -/
def nlToSpace (c : Char) : Char := if c = '\n' then ' ' else c

def replaceNl (s : Str) : Str := s.map nlToSpace

/-- JS `String.prototype.toLowerCase` on ASCII text. -/
def lower (s : Str) : Str := s.map Char.toLower

/-- Split a string on maximal runs of characters satisfying `p`, dropping
empty segments: the token shape of `s.split(/\s+/).filter(Boolean)` and the
nonempty segments of `s.split(/[.!?]+/)`. -/
def splitRunsAux (p : Char → Bool) : Str → Str → List Str
  | [], acc => if acc = [] then [] else [acc.reverse]
  | c :: rest, acc =>
      if p c then
        (if acc = [] then splitRunsAux p rest [] else acc.reverse :: splitRunsAux p rest [])
      else splitRunsAux p rest (c :: acc)

def splitRuns (p : Char → Bool) (s : Str) : List Str := splitRunsAux p s []

/-- Does `pat` occur at the head of `s`? (Used to model `RegExp` literal-phrase
matching.) -/
def startsWithPat : Str → Str → Bool
  | [], _ => true
  | _ :: _, [] => false
  | a :: as, b :: bs => a == b && startsWithPat as bs

/-- Scanner for non-overlapping literal-pattern matches: `skip` positions are
still inside the previous match and are passed over without testing. -/
def countSubstrAux (pat : Str) : Str → Nat → Nat
  | [], _ => 0
  | _ :: rest, skip + 1 => countSubstrAux pat rest skip
  | c :: rest, 0 =>
      if pat ≠ [] ∧ startsWithPat pat (c :: rest) = true then
        1 + countSubstrAux pat rest (pat.length - 1)
      else
        countSubstrAux pat rest 0

/-- Number of non-overlapping occurrences of the literal pattern `pat` in `s`,
scanning left to right: the count produced by `s.match(new RegExp(escaped, "gi"))`
on already-lowercased input (App.jsx lines 285-286). -/
def countSubstr (pat : Str) (s : Str) : Nat := countSubstrAux pat s 0

/-- The fixed filler list (App.jsx line 280). -/
def FILLER_WORDS : List Str :=
  (["um", "uh", "like", "you know", "so", "actually", "basically", "right",
    "i mean", "well"]).map String.toList

/-- Filler counting (App.jsx lines 282-290): multi-word phrases are counted as
case-insensitive substring matches of the normalized text; single-word phrases
as exact case-insensitive whole-token matches. -/
def fillerCountOf (lowered : Str) (tokens : List Str) : Nat :=
  FILLER_WORDS.foldl
    (fun acc fw =>
      if fw.contains ' ' = true then acc + countSubstr fw lowered
      else acc + tokens.countP (fun t => decide (lower t = fw)))
    0

def isLowerAlpha (c : Char) : Bool := decide ('a' ≤ c ∧ c ≤ 'z')

/-- `tRaw.toLowerCase().replace(/[^a-z\-]/g, "")` (App.jsx line 295). -/
def cleanToken (t : Str) : Str :=
  (lower t).filter (fun c => isLowerAlpha c || c == '-')

/-- The test `/^[a-z\-]{6,30}$/.test(t)` (App.jsx line 296). -/
def qualifies (t : Str) : Bool :=
  decide (6 ≤ t.length ∧ t.length ≤ 30) && t.all (fun c => isLowerAlpha c || c == '-')

/-- Session vocabulary growth (App.jsx lines 294-299): each token's cleaned
form is inserted when it passes the length-6-30 `[a-z-]` test and is not
already present. -/
def growSet (set : List Str) (tokens : List Str) : List Str :=
  tokens.foldl
    (fun s tRaw =>
      let t := cleanToken tRaw
      if ¬ t ∈ s ∧ qualifies t = true then s ++ [t] else s)
    set

/-- Academic matching (App.jsx lines 301-302): count tokens whose lowercase
form is in the (grown) vocabulary set. -/
def academicMatchesOf (set : List Str) (tokens : List Str) : Nat :=
  tokens.countP (fun t => decide (lower t ∈ set))

def isVowel (c : Char) : Bool :=
  decide (c = 'a' ∨ c = 'e' ∨ c = 'i' ∨ c = 'o' ∨ c = 'u' ∨ c = 'y')

/-- `cleaned.match(/[aeiouy]{1,2}/g)` match count (App.jsx line 312): the
regex engine scans left to right, greedily taking one or two consecutive
vowels per match. -/
def vowelChunks : Str → Nat
  | [] => 0
  | [c] => if isVowel c then 1 else 0
  | c :: d :: rest =>
      if isVowel c then
        if isVowel d then 1 + vowelChunks rest else 1 + vowelChunks (d :: rest)
      else vowelChunks (d :: rest)

/-- Run-length scanner: `acc` is the length of the vowel run currently being
read; a run is emitted when it ends (at a non-vowel or at the end of the
string). -/
def vowelRunLengthsAux : Str → Nat → List Nat
  | [], acc => if acc = 0 then [] else [acc]
  | c :: rest, acc =>
      if isVowel c then vowelRunLengthsAux rest (acc + 1)
      else if acc = 0 then vowelRunLengthsAux rest 0
      else acc :: vowelRunLengthsAux rest 0

/-- Lengths of the maximal vowel runs of a string (spec-side notion used to
state claim C2). -/
def vowelRunLengths (s : Str) : List Nat := vowelRunLengthsAux s 0

/-- `w.toLowerCase().replace(/[^a-z]/g, "")` (App.jsx line 311). -/
def stripNonAlpha (t : Str) : Str := (lower t).filter isLowerAlpha

/-- Per-token syllable heuristic (App.jsx lines 311-315). -/
def tokenSyllables (w : Str) : Nat :=
  let cleaned := stripNonAlpha w
  let syll := vowelChunks cleaned
  let syll := if cleaned.getLast? = some 'e' then max 1 (syll - 1) else syll
  max 1 syll

/-- Total syllable count of the transcript (App.jsx lines 310-316). -/
def syllables (tokens : List Str) : Nat :=
  tokens.foldl (fun acc w => acc + tokenSyllables w) 0

/-- `mean` (App.jsx lines 70-73). -/
def mean (l : List ℚ) : ℚ :=
  if l.length = 0 then 0 else l.sum / (l.length : ℚ)

/-- JS `Math.round`: round half toward positive infinity. -/
def jsRound (q : ℚ) : ℤ := ⌊q + 1 / 2⌋

def isPunct (c : Char) : Bool := decide (c = '.' ∨ c = '!' ∨ c = '?')

/-- `text.replace(/\n/g, " ").trim()` (App.jsx line 275). -/
def normalizeText (text : Str) : Str := trim (replaceNl text)

/-- `normalized.split(/\s+/).filter(Boolean)` (App.jsx line 276). -/
def tokensOf (text : Str) : List Str := splitRuns isWs (normalizeText text)

def wordCountOf (text : Str) : Nat := (tokensOf text).length

/-- `normalized.split(/[.!?]+/).map(s => s.trim()).filter(Boolean)`
(App.jsx line 307). -/
def sentencesOf (text : Str) : List Str :=
  ((splitRuns isPunct (normalizeText text)).map trim).filter (fun s => decide (s ≠ []))

/-- Average sentence length (App.jsx line 308). -/
def avgSentenceLenOf (sentences : List Str) : ℚ :=
  if sentences.length = 0 then 0
  else (((sentences.map (fun s => (splitRuns isWs s).length)).sum : ℚ)) / (sentences.length : ℚ)

/-- Type-token ratio (App.jsx lines 304-305). -/
def ttrOf (text : Str) : ℚ :=
  ((((tokensOf text).map lower).dedup.length : ℚ)) / max 1 ((wordCountOf text : ℚ))

/-- Rounded Flesch-style readability (App.jsx lines 318-319 and 328). -/
def fleschOf (text : Str) : ℤ :=
  jsRound (max 0 (206.835
    - 1.015 * ((wordCountOf text : ℚ) / max 1 (((sentencesOf text).length : ℚ)))
    - 84.6 * ((syllables (tokensOf text) : ℚ) / max 1 ((wordCountOf text : ℚ)))))

/-- `Math.round(mean(pitchHistory) || 0)` (App.jsx line 329); `x || 0` is the
identity on exact rationals (it only maps falsy `0`/`NaN` to `0`). -/
def pitchMeanOf (pitch : List ℚ) : ℤ := jsRound (mean pitch)

/-- `Math.round(mean(volHistory) * 1000) / 1000` (App.jsx line 330). -/
def volumeMeanOf (vol : List ℚ) : ℚ := ((jsRound (mean vol * 1000) : ℚ)) / 1000

/-- `Math.round(wordCount / Math.max(1, seconds / 60 || 1))` (App.jsx line 331). -/
def wordsPerMinuteOf (text : Str) (seconds : ℚ) : ℤ :=
  jsRound ((wordCountOf text : ℚ) /
    max 1 (if seconds / 60 = 0 then 1 else seconds / 60))

/-- The metrics record returned by `analyzeTranscript` (App.jsx lines 321-332). -/
structure Metrics where
  wordCount : Nat
  fillerCount : Nat
  fillerRate : ℚ
  academicMatches : Nat
  ttr : ℚ
  avgSentenceLen : ℚ
  flesch : ℤ
  pitchMean : ℤ
  volumeMean : ℚ
  wordsPerMinute : ℤ
  deriving DecidableEq, Repr

/-- The seed academic word list (App.jsx lines 76-81). -/
def SEED_ACADEMIC_WORDS : List Str :=
  (["metaphor", "simile", "imagery", "symbolism", "tone", "syntax", "diction",
    "motif", "theme", "persona", "narrative", "voice", "irony", "oxymoron",
    "juxtaposition", "alliteration", "assonance", "sibilance", "enjambment",
    "caesura", "stanza", "structure", "form", "context", "connotation",
    "foregrounding", "lexis", "discourse", "semantic", "mood", "rhythm",
    "meter", "prosody", "register", "attitude"]).map String.toList

/-- `analyzeTranscript` (App.jsx lines 273-333).  The ambient vocabulary set
and the two capture series are passed explicitly; the grown set is returned
alongside the metrics record.  Returns `none` exactly when the input is empty
or all-whitespace (`if (!text || !text.trim()) return null`). -/
def analyzeTranscript (text : Str) (set : List Str) (pitchHist volHist : List ℚ)
    (seconds : ℚ) : Option (Metrics × List Str) :=
  if trim text = [] then none
  else
    some
      ({ wordCount := wordCountOf text
       , fillerCount := fillerCountOf (lower (normalizeText text)) (tokensOf text)
       , fillerRate :=
           ((fillerCountOf (lower (normalizeText text)) (tokensOf text) : ℚ)) /
             max 1 ((wordCountOf text : ℚ))
       , academicMatches :=
           academicMatchesOf (growSet set (tokensOf text)) (tokensOf text)
       , ttr := ttrOf text
       , avgSentenceLen := avgSentenceLenOf (sentencesOf text)
       , flesch := fleschOf text
       , pitchMean := pitchMeanOf pitchHist
       , volumeMean := volumeMeanOf volHist
       , wordsPerMinute := wordsPerMinuteOf text seconds }
      , growSet set (tokensOf text))

/-! ### Pitch estimator (App.jsx lines 218-233) -/

def sumSq (buf : List ℚ) : ℚ := (buf.map (fun x => x * x)).sum

/-- `rms < 0.01` where `rms = sqrt (sumSq / SIZE)`: encoded squared, i.e.
`sumSq / SIZE < 1/10000`, i.e. `sumSq * 10000 < SIZE`.  (For `SIZE = 0` JS
computes `NaN < 0.01 = false`; here `0 < 0` is likewise false.) -/
def isSilent (buf : List ℚ) : Bool :=
  decide (sumSq buf * 10000 < (buf.length : ℚ))

/-- Candidate lags: `for (off = 10; off < Math.min(500, SIZE - 2); off++)`. -/
def lagCandidates (n : Nat) : List Nat := List.range' 10 (min 500 (n - 2) - 10)

/-- Similarity score for one lag (App.jsx lines 226-228): one minus the mean
absolute difference between the frame and its lag-shifted self. -/
def madScore (buf : List ℚ) (off : Nat) : ℚ :=
  1 - ((List.range (buf.length - off)).map
        (fun i => |buf.getD i 0 - buf.getD (i + off) 0|)).sum / ((buf.length - off : Nat) : ℚ)

/-- The lag search `let best = -1; let bestCorr = 0; ...` with strict
improvement (App.jsx lines 224-230). -/
def bestPair (buf : List ℚ) : ℤ × ℚ :=
  (lagCandidates buf.length).foldl
    (fun b off => if b.2 < madScore buf off then ((off : ℤ), madScore buf off) else b)
    (-1, 0)

/-- `lightPitchEstimate` (App.jsx lines 218-233). -/
def lightPitchEstimate (buf : List ℚ) (sr : ℚ) : Option ℤ :=
  if isSilent buf = true then none
  else
    if 1 / 2 < (bestPair buf).2 ∧ 0 < (bestPair buf).1 then
      some (jsRound (sr / ((bestPair buf).1 : ℚ)))
    else none

/-! ### Question-generation endpoint (api/questions.js) -/

/-- JS `text.split(/\n/)`: split on every newline, keeping empty segments. -/
def splitLines : Str → List Str
  | [] => [[]]
  | c :: rest =>
      if c = '\n' then [] :: splitLines rest
      else
        match splitLines rest with
        | [] => [[c]]
        | l :: ls => (c :: l) :: ls

/-- `s.replace(/^\d+\.?\s*/, "")` (api/questions.js line 60): strip leading
digits, one optional period, and any following whitespace; a string not
starting with a digit is unchanged. -/
def stripOrdinal (s : Str) : Str :=
  match s with
  | [] => []
  | c :: _ =>
      if c.isDigit then
        let r1 := s.dropWhile Char.isDigit
        let r2 := match r1 with
          | '.' :: r => r
          | _ => r1
        r2.dropWhile isWs
      else s

/-- The question-list post-processing (api/questions.js lines 56-61). -/
def parseQuestions (text : Str) : List Str :=
  ((((splitLines text).map trim).filter (fun s => decide (s ≠ []))).map
    (fun s => trim (stripOrdinal s))).take 4

/-- Outcome of the questions handler, reduced to what the HTTP boundary
exposes: a status code and the question list. -/
structure QResponse where
  status : Nat
  questions : List Str
  deriving DecidableEq, Repr

/-- `handler` of api/questions.js: non-`POST` is rejected with 405 before
anything else (lines 5-8); a provider failure becomes 500 (lines 47-51);
otherwise the provider text is post-processed and returned with 200
(lines 53-63).  The provider response is abstracted as `Option Str`. -/
def questionsHandler (method : Str) (providerText : Option Str) : QResponse :=
  if method ≠ String.toList "POST" then ⟨405, []⟩
  else
    match providerText with
    | none => ⟨500, []⟩
    | some t => ⟨200, parseQuestions t⟩

/-! ### Helper lemmas -/

theorem dropWhile_eq_nil_of_all {p : Char → Bool} {l : Str}
    (h : ∀ c ∈ l.dropWhile p, p c = true) : l.dropWhile p = [] := by
  induction l with
  | nil => rfl
  | cons c rest ih =>
      by_cases hc : p c = true
      · rw [List.dropWhile_cons_of_pos hc] at h ⊢; exact ih h
      · rw [List.dropWhile_cons_of_neg hc] at h
        exact absurd (h c (by simp)) hc

theorem trim_eq_nil_iff {s : Str} : trim s = [] ↔ ∀ c ∈ s, isWs c = true := by
  unfold trim
  constructor
  · intro h c hc
    rw [List.reverse_eq_nil_iff, List.dropWhile_eq_nil_iff] at h
    have hall : ∀ c ∈ s.dropWhile isWs, isWs c = true := by
      intro d hd
      exact h d (by simpa using hd)
    have hsplit := List.takeWhile_append_dropWhile (p := isWs) (l := s)
    rw [← hsplit] at hc
    rcases List.mem_append.mp hc with h1 | h2
    · exact List.mem_takeWhile_imp h1
    · exact hall _ h2
  · intro h
    have h1 : s.dropWhile isWs = [] :=
      List.dropWhile_eq_nil_iff.mpr (fun c hc => h c hc)
    rw [h1]
    rfl

theorem trim_eq_nil_of_all_ws {s : Str} (h : ∀ c ∈ trim s, isWs c = true) :
    trim s = [] := by
  unfold trim at h ⊢
  have h2 : ∀ c ∈ ((s.dropWhile isWs).reverse.dropWhile isWs), isWs c = true := by
    intro c hc; exact h c (by simpa using hc)
  rw [dropWhile_eq_nil_of_all h2]
  rfl

theorem replaceNl_all_ws {s : Str} :
    (∀ c ∈ replaceNl s, isWs c = true) ↔ ∀ c ∈ s, isWs c = true := by
  unfold replaceNl
  simp only [List.mem_map, forall_exists_index, and_imp]
  constructor
  · intro h c hc
    have := h (nlToSpace c) c hc rfl
    by_cases hnl : c = '\n'
    · subst hnl; rfl
    · rwa [nlToSpace, if_neg hnl] at this
  · intro h d c hc hd
    subst hd
    by_cases hnl : c = '\n'
    · subst hnl; rfl
    · rw [nlToSpace, if_neg hnl]; exact h c hc

theorem splitRunsAux_eq_nil_iff {p : Char → Bool} {s : Str} {acc : Str} :
    splitRunsAux p s acc = [] ↔ (∀ c ∈ s, p c = true) ∧ acc = [] := by
  induction s generalizing acc with
  | nil =>
      by_cases h : acc = [] <;> simp [splitRunsAux, h]
  | cons c rest ih =>
      by_cases hc : p c = true
      · by_cases h : acc = [] <;> simp [splitRunsAux, hc, h, ih]
      · simp only [splitRunsAux, if_neg hc, ih]
        simp [hc]

theorem splitRuns_eq_nil_iff {p : Char → Bool} {s : Str} :
    splitRuns p s = [] ↔ ∀ c ∈ s, p c = true := by
  unfold splitRuns
  rw [splitRunsAux_eq_nil_iff]
  simp

theorem tokensOf_ne_nil {text : Str} (h : trim text ≠ []) : tokensOf text ≠ [] := by
  intro hnil
  apply h
  rw [tokensOf, splitRuns_eq_nil_iff] at hnil
  rw [normalizeText] at hnil
  have h1 : trim (replaceNl text) = [] := trim_eq_nil_of_all_ws hnil
  rw [trim_eq_nil_iff, replaceNl_all_ws] at h1
  exact trim_eq_nil_iff.mpr h1

/-- Inversion of a successful analyzer run: the input was not all-whitespace,
the metrics record is the literal record built from the input, and the
returned set is the grown set. -/
theorem analyze_inv {text : Str} {set : List Str} {p v : List ℚ} {sec : ℚ}
    {m : Metrics} {s2 : List Str}
    (h : analyzeTranscript text set p v sec = some (m, s2)) :
    trim text ≠ [] ∧
    m = { wordCount := wordCountOf text
        , fillerCount := fillerCountOf (lower (normalizeText text)) (tokensOf text)
        , fillerRate :=
            ((fillerCountOf (lower (normalizeText text)) (tokensOf text) : ℚ)) /
              max 1 ((wordCountOf text : ℚ))
        , academicMatches :=
            academicMatchesOf (growSet set (tokensOf text)) (tokensOf text)
        , ttr := ttrOf text
        , avgSentenceLen := avgSentenceLenOf (sentencesOf text)
        , flesch := fleschOf text
        , pitchMean := pitchMeanOf p
        , volumeMean := volumeMeanOf v
        , wordsPerMinute := wordsPerMinuteOf text sec } ∧
    s2 = growSet set (tokensOf text) := by
  by_cases hne : trim text = []
  · rw [analyzeTranscript, if_pos hne] at h
    exact absurd h (by simp)
  · rw [analyzeTranscript, if_neg hne, Option.some.injEq, Prod.mk.injEq] at h
    exact ⟨hne, h.1.symm, h.2.symm⟩

/-! ### Claim C1 -/

/-- C1: the Transcript Analyzer returns an absent result exactly for empty or
all-whitespace transcripts (`if (!text || !text.trim()) return null`); every
other transcript yields a metrics record. -/
theorem c1_empty_returns_none (text : Str) (set : List Str) (p v : List ℚ)
    (sec : ℚ) :
    analyzeTranscript text set p v sec = none ↔ trim text = [] := by
  by_cases hne : trim text = []
  · rw [analyzeTranscript, if_pos hne]; simp [hne]
  · rw [analyzeTranscript, if_neg hne]; simp [hne]

/-! ### Claim C4 -/

/-- C4: for every transcript the analyzer accepts, the type-token ratio
(distinct lowercase tokens over `max 1 wordCount`) lies in the interval
`(0, 1]`. -/
theorem c4_ttr_in_unit_interval (text : Str) (set : List Str) (p v : List ℚ)
    (sec : ℚ) (m : Metrics) (s2 : List Str)
    (h : analyzeTranscript text set p v sec = some (m, s2)) :
    0 < m.ttr ∧ m.ttr ≤ 1 := by
  obtain ⟨hne, hm, -⟩ := analyze_inv h
  subst hm
  show 0 < ttrOf text ∧ ttrOf text ≤ 1
  have htok : tokensOf text ≠ [] := tokensOf_ne_nil hne
  have hwc : 1 ≤ wordCountOf text := by
    rw [wordCountOf]
    exact List.length_pos.mpr htok
  have hmap : (tokensOf text).map lower ≠ [] := by
    simpa using htok
  have hd1 : 1 ≤ ((tokensOf text).map lower).dedup.length := by
    apply List.length_pos.mpr
    simpa [List.dedup_eq_nil] using hmap
  have hd2 : ((tokensOf text).map lower).dedup.length ≤ wordCountOf text := by
    have := (List.dedup_sublist ((tokensOf text).map lower)).length_le
    simpa [wordCountOf] using this
  have hmax : max 1 ((wordCountOf text : ℚ)) = (wordCountOf text : ℚ) :=
    max_eq_right (by exact_mod_cast hwc)
  rw [ttrOf, hmax]
  constructor
  · apply div_pos
    · exact_mod_cast hd1
    · exact_mod_cast hwc
  · rw [div_le_one (by exact_mod_cast hwc)]
    exact_mod_cast hd2

/-- C4 witness: a concrete non-empty transcript whose type-token ratio the
theorem places in `(0, 1]`. -/
theorem c4_ttr_witness :
    0 < ((analyzeTranscript (String.toList "hi there hi") SEED_ACADEMIC_WORDS [] [] 0).map
          (fun q => q.1.ttr)).getD 0 ∧
    ((analyzeTranscript (String.toList "hi there hi") SEED_ACADEMIC_WORDS [] [] 0).map
          (fun q => q.1.ttr)).getD 0 ≤ 1 := by
  rcases hE : analyzeTranscript (String.toList "hi there hi") SEED_ACADEMIC_WORDS [] [] 0 with
    _ | ⟨m, s2⟩
  · exact absurd hE (by decide)
  · simpa using c4_ttr_in_unit_interval _ _ _ _ _ _ _ hE

/-! ### Claim C5 -/

/-- C5: the readability score equals
`max 0 (206.835 − 1.015·(wordCount/sentenceCount) − 84.6·(syllables/wordCount))`
rounded to the nearest integer, with zero denominators replaced by 1, and is
therefore never negative. -/
theorem c5_flesch_formula (text : Str) (set : List Str) (p v : List ℚ)
    (sec : ℚ) (m : Metrics) (s2 : List Str)
    (h : analyzeTranscript text set p v sec = some (m, s2)) :
    m.flesch =
      jsRound (max 0 (206.835
        - 1.015 * ((wordCountOf text : ℚ) / max 1 (((sentencesOf text).length : ℚ)))
        - 84.6 * ((syllables (tokensOf text) : ℚ) / max 1 ((wordCountOf text : ℚ))))) ∧
    0 ≤ m.flesch := by
  obtain ⟨-, hm, -⟩ := analyze_inv h
  subst hm
  refine ⟨rfl, ?_⟩
  show 0 ≤ fleschOf text
  rw [fleschOf, jsRound]
  apply Int.le_floor.mpr
  push_cast
  have := le_max_left (0 : ℚ)
    (206.835
      - 1.015 * ((wordCountOf text : ℚ) / max 1 (((sentencesOf text).length : ℚ)))
      - 84.6 * ((syllables (tokensOf text) : ℚ) / max 1 ((wordCountOf text : ℚ))))
  linarith

/-- C5 witness: the readability clamp applied to a concrete transcript. -/
theorem c5_flesch_witness :
    0 ≤ ((analyzeTranscript (String.toList "hello world") SEED_ACADEMIC_WORDS [] [] 0).map
          (fun q => q.1.flesch)).getD (-1) := by
  rcases hE : analyzeTranscript (String.toList "hello world") SEED_ACADEMIC_WORDS [] [] 0 with
    _ | ⟨m, s2⟩
  · exact absurd hE (by decide)
  · simpa using (c5_flesch_formula _ _ _ _ _ _ _ hE).2

/-! ### Claim C7 -/

theorem mem_growSet {tokens : List Str} {set : List Str} {w : Str} :
    w ∈ growSet set tokens ↔
      w ∈ set ∨ ∃ t ∈ tokens, cleanToken t = w ∧ qualifies w = true := by
  induction tokens generalizing set with
  | nil => simp [growSet]
  | cons t ts ih =>
      rw [growSet, List.foldl_cons]
      show w ∈ growSet (if ¬ cleanToken t ∈ set ∧ qualifies (cleanToken t) = true
          then set ++ [cleanToken t] else set) ts ↔ _
      by_cases hc : ¬ cleanToken t ∈ set ∧ qualifies (cleanToken t) = true
      · rw [if_pos hc, ih]
        constructor
        · intro h
          rcases h with h | h
          · rcases List.mem_append.mp h with hs | he
            · exact Or.inl hs
            · have hw : w = cleanToken t := by simpa using he
              refine Or.inr ⟨t, List.mem_cons_self _ _, hw.symm, ?_⟩
              rw [hw]; exact hc.2
          · obtain ⟨x, hx, hcx, hqx⟩ := h
            exact Or.inr ⟨x, List.mem_cons_of_mem _ hx, hcx, hqx⟩
        · intro h
          rcases h with hs | h
          · exact Or.inl (List.mem_append.mpr (Or.inl hs))
          · obtain ⟨x, hx, hcx, hqx⟩ := h
            rcases List.mem_cons.mp hx with rfl | hx2
            · exact Or.inl (List.mem_append.mpr (Or.inr (by simp [hcx])))
            · exact Or.inr ⟨x, hx2, hcx, hqx⟩
      · rw [if_neg hc, ih]
        push_neg at hc
        constructor
        · intro h
          rcases h with hs | h
          · exact Or.inl hs
          · obtain ⟨x, hx, hcx, hqx⟩ := h
            exact Or.inr ⟨x, List.mem_cons_of_mem _ hx, hcx, hqx⟩
        · intro h
          rcases h with hs | h
          · exact Or.inl hs
          · obtain ⟨x, hx, hcx, hqx⟩ := h
            rcases List.mem_cons.mp hx with rfl | hx2
            · rcases Classical.em (cleanToken x ∈ set) with hin | hout
              · exact Or.inl (hcx ▸ hin)
              · exact absurd (hcx ▸ hqx) (hc hout)
            · exact Or.inr ⟨x, hx2, hcx, hqx⟩

theorem subset_growSet {tokens : List Str} {set : List Str} :
    set ⊆ growSet set tokens :=
  fun _ hw => mem_growSet.mpr (Or.inl hw)

/-- C7: the vocabulary set only grows.  A successful analyzer run returns
exactly the input set extended with the cleaned forms of the qualifying
tokens (lowercase letters-and-hyphens form, length 6-30, `^[a-z-]+$`),
removing nothing; and any word already in the set is counted as an academic
match whenever a token of the transcript lowercases to it. -/
theorem c7_vocabulary_grows (text : Str) (set : List Str) (p v : List ℚ)
    (sec : ℚ) (m : Metrics) (s2 : List Str)
    (h : analyzeTranscript text set p v sec = some (m, s2)) :
    set ⊆ s2 ∧
    (∀ w, w ∈ s2 ↔
      w ∈ set ∨ ∃ t ∈ tokensOf text, cleanToken t = w ∧ qualifies w = true) ∧
    (∀ w ∈ set, ∀ t ∈ tokensOf text, lower t = w → 1 ≤ m.academicMatches) := by
  obtain ⟨-, hm, hs⟩ := analyze_inv h
  subst hm hs
  refine ⟨subset_growSet, fun w => mem_growSet, ?_⟩
  intro w hw t ht hlt
  show 1 ≤ academicMatchesOf (growSet set (tokensOf text)) (tokensOf text)
  rw [academicMatchesOf]
  apply List.countP_pos_iff.mpr
  exact ⟨t, ht, by simp [hlt, subset_growSet hw]⟩

/-- C7 witness: "metaphor" is in the seed set, and a transcript containing
the token "metaphor" scores at least one academic match. -/
theorem c7_vocabulary_witness :
    1 ≤ ((analyzeTranscript (String.toList "a metaphor here") SEED_ACADEMIC_WORDS [] [] 0).map
          (fun q => q.1.academicMatches)).getD 0 := by
  rcases hE : analyzeTranscript (String.toList "a metaphor here") SEED_ACADEMIC_WORDS [] [] 0 with
    _ | ⟨m, s2⟩
  · exact absurd hE (by decide)
  · simpa using
      (c7_vocabulary_grows _ _ _ _ _ _ _ hE).2.2 (String.toList "metaphor") (by decide)
        (String.toList "metaphor") (by decide) (by decide)

/-! ### Claim C10 -/

/-- The eight single-word filler phrases of the source list. -/
def SINGLE_FILLERS : List Str :=
  (["um", "uh", "like", "so", "actually", "basically", "right", "well"]).map
    String.toList

theorem single_filler_hit (x : Str) :
    ((if x = String.toList "um" then 1 else 0)
      + (if x = String.toList "uh" then 1 else 0)
      + (if x = String.toList "like" then 1 else 0)
      + (if x = String.toList "so" then 1 else 0)
      + (if x = String.toList "actually" then 1 else 0)
      + (if x = String.toList "basically" then 1 else 0)
      + (if x = String.toList "right" then 1 else 0)
      + (if x = String.toList "well" then 1 else 0) : Nat)
      = if x ∈ SINGLE_FILLERS then 1 else 0 := by
  by_cases hm : x ∈ SINGLE_FILLERS
  · rw [if_pos hm]
    simp only [SINGLE_FILLERS, List.map_cons, List.map_nil, List.mem_cons,
      List.not_mem_nil, or_false] at hm
    rcases hm with h | h | h | h | h | h | h | h <;> subst h <;> decide
  · rw [if_neg hm]
    simp only [SINGLE_FILLERS, List.map_cons, List.map_nil, List.mem_cons,
      List.not_mem_nil, or_false, not_or] at hm
    obtain ⟨h1, h2, h3, h4, h5, h6, h7, h8⟩ := hm
    rw [if_neg h1, if_neg h2, if_neg h3, if_neg h4, if_neg h5, if_neg h6,
      if_neg h7, if_neg h8]

theorem countP_single_fillers (tokens : List Str) :
    (tokens.countP (fun t => decide (lower t = String.toList "um"))
      + tokens.countP (fun t => decide (lower t = String.toList "uh"))
      + tokens.countP (fun t => decide (lower t = String.toList "like"))
      + tokens.countP (fun t => decide (lower t = String.toList "so"))
      + tokens.countP (fun t => decide (lower t = String.toList "actually"))
      + tokens.countP (fun t => decide (lower t = String.toList "basically"))
      + tokens.countP (fun t => decide (lower t = String.toList "right"))
      + tokens.countP (fun t => decide (lower t = String.toList "well")))
      = tokens.countP (fun t => decide (lower t ∈ SINGLE_FILLERS)) := by
  induction tokens with
  | nil => simp
  | cons t ts ih =>
      simp only [List.countP_cons, decide_eq_true_eq]
      have h := single_filler_hit (lower t)
      omega

theorem fillerCountOf_eq (lowered : Str) (tokens : List Str) :
    fillerCountOf lowered tokens =
      countSubstr (String.toList "you know") lowered
        + countSubstr (String.toList "i mean") lowered
        + tokens.countP (fun t => decide (lower t ∈ SINGLE_FILLERS)) := by
  show (((((((((0
      + tokens.countP (fun t => decide (lower t = String.toList "um")))
      + tokens.countP (fun t => decide (lower t = String.toList "uh")))
      + tokens.countP (fun t => decide (lower t = String.toList "like")))
      + countSubstr (String.toList "you know") lowered)
      + tokens.countP (fun t => decide (lower t = String.toList "so")))
      + tokens.countP (fun t => decide (lower t = String.toList "actually")))
      + tokens.countP (fun t => decide (lower t = String.toList "basically")))
      + tokens.countP (fun t => decide (lower t = String.toList "right")))
      + countSubstr (String.toList "i mean") lowered)
      + tokens.countP (fun t => decide (lower t = String.toList "well")) = _
  have h := countP_single_fillers tokens
  omega

/-- C10: a single-word filler contributes exactly one count per token whose
entire lowercased form equals the filler word; punctuation-carrying tokens
such as "Um," contribute nothing, and the only other filler contributions are
the substring counts of the two multi-word phrases. -/
theorem c10_single_filler_token_match (text : Str) (set : List Str)
    (p v : List ℚ) (sec : ℚ) (m : Metrics) (s2 : List Str)
    (h : analyzeTranscript text set p v sec = some (m, s2)) :
    m.fillerCount =
      countSubstr (String.toList "you know") (lower (normalizeText text))
        + countSubstr (String.toList "i mean") (lower (normalizeText text))
        + (tokensOf text).countP (fun t => decide (lower t ∈ SINGLE_FILLERS)) := by
  obtain ⟨-, hm, -⟩ := analyze_inv h
  subst hm
  exact fillerCountOf_eq _ _

/-- C10 witness: in "Um, well done" the token "Um," (with its comma) matches
no filler, while the bare token "well" matches one; the filler count is 1. -/
theorem c10_filler_witness :
    ((analyzeTranscript (String.toList "Um, well done") SEED_ACADEMIC_WORDS [] [] 0).map
        (fun q => q.1.fillerCount)).getD 99 = 1 := by
  rcases hE : analyzeTranscript (String.toList "Um, well done") SEED_ACADEMIC_WORDS [] [] 0 with
    _ | ⟨m, s2⟩
  · exact absurd hE (by decide)
  · have h := c10_single_filler_token_match _ _ _ _ _ _ _ hE
    simp only [Option.map_some', Option.getD_some]
    rw [h]
    decide

/-! ### Claim C9 -/

/-- C9: a successful question-generation response holds at most 4 entries,
each obtained from a non-blank line of the provider text by trimming and
stripping a leading ordinal; non-`POST` requests are answered with 405. -/
theorem c9_questions_shape (text : Str) (method : Str) (resp : Option Str) :
    (parseQuestions text).length ≤ 4 ∧
    (∀ q ∈ parseQuestions text,
      ∃ l ∈ splitLines text, trim l ≠ [] ∧ q = trim (stripOrdinal (trim l))) ∧
    (method ≠ String.toList "POST" → (questionsHandler method resp).status = 405) ∧
    (questionsHandler (String.toList "POST") (some text)).status = 200 ∧
    (questionsHandler (String.toList "POST") (some text)).questions =
      parseQuestions text := by
  refine ⟨?_, ?_, ?_, ?_, ?_⟩
  · rw [parseQuestions]
    exact (List.length_take_le _ _).trans (le_refl 4)
  · intro q hq
    have hq2 := List.take_subset 4 _ hq
    obtain ⟨x, hx, hqx⟩ := List.mem_map.mp hq2
    have hx2 := List.mem_filter.mp hx
    obtain ⟨y, hy, hxy⟩ := List.mem_map.mp hx2.1
    refine ⟨y, hy, ?_, ?_⟩
    · rw [hxy]
      simpa using hx2.2
    · rw [← hqx, hxy]
  · intro hm
    rw [questionsHandler.eq_def, if_pos hm]
  · rw [questionsHandler.eq_def, if_neg (by simp)]
  · rw [questionsHandler.eq_def, if_neg (by simp)]

/-- C9 witness: a concrete five-line numbered provider text is capped at four
stripped questions, and the handler on a concrete `GET` returns 405. -/
theorem c9_questions_witness :
    (parseQuestions (String.toList "1. Why?\n2. How?\n\n3. What?\n4. When?\n5. Extra")).length ≤ 4 ∧
    (questionsHandler (String.toList "GET") none).status = 405 := by
  refine ⟨(c9_questions_shape
      (String.toList "1. Why?\n2. How?\n\n3. What?\n4. When?\n5. Extra")
      (String.toList "GET") none).1, ?_⟩
  exact (c9_questions_shape
      (String.toList "1. Why?\n2. How?\n\n3. What?\n4. When?\n5. Extra")
      (String.toList "GET") none).2.2.1 (by decide)

/-! ### Claim C2 -/

/-- The per-token syllable count exactly as claim C2 words it: the number of
MAXIMAL vowel runs of the cleaned token, minus 1 (floored at 1) when the
cleaned token ends in "e", floored at 1.  Spec-side definition, compared
against the source's `tokenSyllables`. -/
def claimTokenSyllables (w : Str) : Nat :=
  let cleaned := stripNonAlpha w
  let syll := (vowelRunLengths cleaned).length
  let syll2 := if cleaned.getLast? = some 'e' then max 1 (syll - 1) else syll
  max 1 syll2

/-- The syllable total claim C2 asserts for a transcript. -/
def claimSyllables (tokens : List Str) : Nat :=
  (tokens.map claimTokenSyllables).sum

/-- The per-token syllable count with the run count replaced by what the
`[aeiouy]{1,2}` scan actually produces: each maximal vowel run of length `L`
contributes `⌈L/2⌉` groups. -/
def amendedTokenSyllables (w : Str) : Nat :=
  let cleaned := stripNonAlpha w
  let syll := ((vowelRunLengths cleaned).map (fun L => (L + 1) / 2)).sum
  let syll2 := if cleaned.getLast? = some 'e' then max 1 (syll - 1) else syll
  max 1 syll2

theorem vowelRunLengthsAux_spec (s : Str) (acc : Nat) :
    vowelRunLengthsAux s acc =
      (if acc + (s.takeWhile isVowel).length = 0 then []
       else [acc + (s.takeWhile isVowel).length])
        ++ vowelRunLengthsAux ((s.dropWhile isVowel).tail) 0 := by
  induction s generalizing acc with
  | nil => by_cases h : acc = 0 <;> simp [vowelRunLengthsAux, h]
  | cons c rest ih =>
      by_cases hc : isVowel c = true
      · have e1 : vowelRunLengthsAux (c :: rest) acc = vowelRunLengthsAux rest (acc + 1) := by
          simp [vowelRunLengthsAux, hc]
        rw [e1, List.takeWhile_cons_of_pos hc, List.dropWhile_cons_of_pos hc, ih]
        simp only [List.length_cons]
        have e2 : acc + 1 + (rest.takeWhile isVowel).length
            = acc + ((rest.takeWhile isVowel).length + 1) := by omega
        rw [e2]
      · have e1 : vowelRunLengthsAux (c :: rest) acc
            = if acc = 0 then vowelRunLengthsAux rest 0
              else acc :: vowelRunLengthsAux rest 0 := by
          simp [vowelRunLengthsAux, hc]
        rw [e1, List.takeWhile_cons_of_neg hc, List.dropWhile_cons_of_neg hc]
        by_cases ha : acc = 0
        · simp [ha]
        · simp [ha]

/-- The `[aeiouy]{1,2}` left-to-right scan counts `⌈L/2⌉` matches inside each
maximal vowel run of length `L`. -/
theorem vowelChunks_eq_runs (s : Str) :
    vowelChunks s = ((vowelRunLengths s).map (fun L => (L + 1) / 2)).sum := by
  rw [vowelRunLengths]
  induction s using vowelChunks.induct with
  | case1 => simp [vowelChunks, vowelRunLengthsAux]
  | case2 c hc => simp [vowelChunks, vowelRunLengthsAux, hc]
  | case3 c hc => simp [vowelChunks, vowelRunLengthsAux, hc]
  | case4 c d rest hc hd ih =>
      have e1 : vowelChunks (c :: d :: rest) = 1 + vowelChunks rest := by
        simp [vowelChunks, hc, hd]
      have e2 : vowelRunLengthsAux (c :: d :: rest) 0 = vowelRunLengthsAux rest 2 := by
        simp [vowelRunLengthsAux, hc, hd]
      rw [e1, e2, ih, vowelRunLengthsAux_spec rest 2, vowelRunLengthsAux_spec rest 0]
      by_cases hk : (rest.takeWhile isVowel).length = 0
      · simp [hk]
      · rw [if_neg (by omega), if_neg (by omega)]
        simp only [List.map_append, List.sum_append, List.map_cons, List.map_nil,
          List.sum_cons, List.sum_nil]
        omega
  | case5 c d rest hc hd ih =>
      have e1 : vowelChunks (c :: d :: rest) = 1 + vowelChunks (d :: rest) := by
        simp [vowelChunks, hc, hd]
      have e2 : vowelRunLengthsAux (c :: d :: rest) 0
          = 1 :: vowelRunLengthsAux rest 0 := by
        simp [vowelRunLengthsAux, hc, hd]
      have e3 : vowelRunLengthsAux (d :: rest) 0 = vowelRunLengthsAux rest 0 := by
        simp [vowelRunLengthsAux, hd]
      rw [e1, e2, ih, e3]
      simp
  | case6 c d rest hc ih =>
      have e1 : vowelChunks (c :: d :: rest) = vowelChunks (d :: rest) := by
        simp [vowelChunks, hc]
      have e2 : vowelRunLengthsAux (c :: d :: rest) 0
          = vowelRunLengthsAux (d :: rest) 0 := by
        simp [vowelRunLengthsAux, hc]
      rw [e1, e2, ih]

theorem foldl_add_map_sum (f : Str → Nat) (l : List Str) (a : Nat) :
    l.foldl (fun acc w => acc + f w) a = a + (l.map f).sum := by
  induction l generalizing a with
  | nil => simp
  | cons w ws ih => simp [List.foldl_cons, ih, Nat.add_assoc]

theorem tokenSyllables_eq_amended (w : Str) :
    tokenSyllables w = amendedTokenSyllables w := by
  rw [tokenSyllables, amendedTokenSyllables, vowelChunks_eq_runs]

/-- C2 counterexample: on the transcript "beauty" the analyzer's syllable
total is 3 (the run "eau" yields two `[aeiouy]{1,2}` matches), while the
maximal-vowel-run rule of the claim yields 2. -/
theorem c2_syllable_counterexample :
    syllables (tokensOf (String.toList "beauty")) ≠
      claimSyllables (tokensOf (String.toList "beauty")) := by
  decide

/-- C2 (amended): the analyzer's syllable total is the sum over tokens of:
the number of `[aeiouy]{1,2}` groups in the cleaned token — that is, `⌈L/2⌉`
summed over its maximal vowel runs of lengths `L` — minus 1 (floored at 1)
if the cleaned form ends in "e", with each token's count floored at 1. -/
theorem c2_syllables_amended (tokens : List Str) :
    syllables tokens = (tokens.map amendedTokenSyllables).sum := by
  rw [syllables, foldl_add_map_sum tokenSyllables tokens 0]
  simp only [Nat.zero_add]
  congr 1
  exact List.map_congr_left (fun w _ => tokenSyllables_eq_amended w)

/-! ### Claim C3 -/

/-- The sample transcript fixed by the spec (also used by `runInternalTests`,
App.jsx line 337). -/
def sampleTranscript : Str :=
  String.toList
    "Um, I think the data indicates a significant trend. Like, it suggests a method to analyze variables."

/-- C3 counterexample: on the sample transcript the filler count is 0, not at
least 2 — the tokens "Um," and "Like," carry punctuation, so the exact
whole-token filler comparison never fires. -/
theorem c3_sample_counterexample :
    ¬ (2 ≤ ((analyzeTranscript sampleTranscript SEED_ACADEMIC_WORDS [] [] 0).map
        (fun q => q.1.fillerCount)).getD 0) := by
  decide

/-- C3 (amended): on the sample transcript the word count is 17 as claimed,
but the filler count is 0 (no token equals a filler word exactly), and the
academic match count is 5: the grown set contains "method" (matched) but
neither "data" (length 4: not auto-added, not in the seed list) nor the
token "variables." (its trailing period defeats the set lookup). -/
theorem c3_sample_metrics :
    ((analyzeTranscript sampleTranscript SEED_ACADEMIC_WORDS [] [] 0).map
        (fun q => q.1.wordCount)).getD 0 = 17 ∧
    ((analyzeTranscript sampleTranscript SEED_ACADEMIC_WORDS [] [] 0).map
        (fun q => q.1.fillerCount)).getD 99 = 0 ∧
    ((analyzeTranscript sampleTranscript SEED_ACADEMIC_WORDS [] [] 0).map
        (fun q => q.1.academicMatches)).getD 0 = 5 ∧
    ((analyzeTranscript sampleTranscript SEED_ACADEMIC_WORDS [] [] 0).map
        (fun q => decide (lower (String.toList "method") ∈ q.2))).getD false = true ∧
    ((analyzeTranscript sampleTranscript SEED_ACADEMIC_WORDS [] [] 0).map
        (fun q => decide (lower (String.toList "data") ∈ q.2))).getD true = false ∧
    ((analyzeTranscript sampleTranscript SEED_ACADEMIC_WORDS [] [] 0).map
        (fun q => decide (lower (String.toList "variables.") ∈ q.2))).getD true = false := by
  refine ⟨by decide, by decide, by decide, by decide, by decide, by decide⟩

/-! ### Claim C8 -/

/-- C8 counterexample: with Pitch Series `[1, 2]` the analyzer reports a pitch
summary of `2`, while the plain arithmetic mean is `3/2` — the pitch mean is
rounded by `Math.round`, contrary to the claim. -/
theorem c8_pitch_mean_counterexample :
    ((analyzeTranscript (String.toList "hi") SEED_ACADEMIC_WORDS [1, 2] [] 0).map
        (fun q => q.1.pitchMean)).getD 0 = 2 ∧
    mean [(1 : ℚ), 2] = 3 / 2 ∧
    ((2 : ℤ) : ℚ) ≠ mean [(1 : ℚ), 2] := by
  refine ⟨?_, by norm_num [mean], by norm_num [mean]⟩
  rw [analyzeTranscript, if_neg (by decide)]
  norm_num [pitchMeanOf, mean, jsRound]

/-- C8 (amended): the pitch summary is the arithmetic mean of the Pitch
Series rounded to the nearest integer, the loudness summary is the arithmetic
mean of the Loudness Series rounded to 3 decimal places, and each is 0 when
its series is empty. -/
theorem c8_series_means (text : Str) (set : List Str) (p v : List ℚ)
    (sec : ℚ) (m : Metrics) (s2 : List Str)
    (h : analyzeTranscript text set p v sec = some (m, s2)) :
    m.pitchMean = jsRound (mean p) ∧
    m.volumeMean = ((jsRound (mean v * 1000) : ℚ)) / 1000 ∧
    (p = [] → m.pitchMean = 0) ∧
    (v = [] → m.volumeMean = 0) := by
  obtain ⟨-, hm, -⟩ := analyze_inv h
  subst hm
  refine ⟨rfl, rfl, ?_, ?_⟩
  · rintro rfl
    show pitchMeanOf [] = 0
    norm_num [pitchMeanOf, mean, jsRound]
  · rintro rfl
    show volumeMeanOf [] = 0
    norm_num [volumeMeanOf, mean, jsRound]

/-- C8 witness: a concrete run with Pitch Series `[1, 2]` and an empty
Loudness Series. -/
theorem c8_series_means_witness :
    ((analyzeTranscript (String.toList "go on") SEED_ACADEMIC_WORDS [1, 2] [] 0).map
        (fun q => q.1.pitchMean)).getD 99 = jsRound (mean [1, 2]) ∧
    ((analyzeTranscript (String.toList "go on") SEED_ACADEMIC_WORDS [1, 2] [] 0).map
        (fun q => q.1.volumeMean)).getD 99 = 0 := by
  rcases hE : analyzeTranscript (String.toList "go on") SEED_ACADEMIC_WORDS [1, 2] [] 0 with
    _ | ⟨m, s2⟩
  · exact absurd hE (by decide)
  · have h := c8_series_means _ _ _ _ _ _ _ hE
    simp only [Option.map_some', Option.getD_some]
    exact ⟨h.1, h.2.2.2 rfl⟩

/-! ### Claim C6 -/

theorem bestFold_spec (f : Nat → ℚ) (l : List Nat) (init : ℤ × ℚ) :
    (l.foldl (fun b off => if b.2 < f off then ((off : ℤ), f off) else b) init = init ∨
      ∃ off ∈ l,
        l.foldl (fun b off => if b.2 < f off then ((off : ℤ), f off) else b) init
          = ((off : ℤ), f off)) ∧
    init.2 ≤ (l.foldl (fun b off => if b.2 < f off then ((off : ℤ), f off) else b) init).2 ∧
    (∀ off ∈ l,
      f off ≤ (l.foldl (fun b off => if b.2 < f off then ((off : ℤ), f off) else b) init).2) := by
  induction l generalizing init with
  | nil =>
      refine ⟨Or.inl rfl, le_refl _, ?_⟩
      intro off hoff
      exact absurd hoff (List.not_mem_nil off)
  | cons a t ih =>
      simp only [List.foldl_cons]
      by_cases hc : init.2 < f a
      · rw [if_pos hc]
        obtain ⟨prov, hle, hall⟩ := ih ((a : ℤ), f a)
        refine ⟨?_, le_trans (le_of_lt hc) hle, ?_⟩
        · rcases prov with hr | ⟨off, hoff, hr⟩
          · exact Or.inr ⟨a, List.mem_cons_self _ _, hr⟩
          · exact Or.inr ⟨off, List.mem_cons_of_mem _ hoff, hr⟩
        · intro off hoff
          rcases List.mem_cons.mp hoff with rfl | hoff2
          · exact hle
          · exact hall off hoff2
      · rw [if_neg hc]
        obtain ⟨prov, hle, hall⟩ := ih init
        refine ⟨?_, hle, ?_⟩
        · rcases prov with hr | ⟨off, hoff, hr⟩
          · exact Or.inl hr
          · exact Or.inr ⟨off, List.mem_cons_of_mem _ hoff, hr⟩
        · intro off hoff
          rcases List.mem_cons.mp hoff with rfl | hoff2
          · exact le_trans (le_of_not_lt hc) hle
          · exact hall off hoff2

/-- C6 (amended): the pitch estimator scores each candidate lag
`10 ≤ off < min 500 (frameLength − 2)` as one minus the mean absolute
difference between the frame and its lag-shifted self, returns nothing for a
silent frame (RMS < 0.01) or when the best score is at most 0.5, and
otherwise returns `sampleRate / bestLag` rounded to the nearest integer for a
best-scoring candidate lag. -/
theorem c6_pitch_estimator (buf : List ℚ) (sr : ℚ) :
    (isSilent buf = true → lightPitchEstimate buf sr = none) ∧
    ((bestPair buf).2 ≤ 1 / 2 → lightPitchEstimate buf sr = none) ∧
    (isSilent buf = false → 1 / 2 < (bestPair buf).2 →
      lightPitchEstimate buf sr = some (jsRound (sr / ((bestPair buf).1 : ℚ))) ∧
      (∃ off ∈ lagCandidates buf.length,
        (bestPair buf).1 = (off : ℤ) ∧ (bestPair buf).2 = madScore buf off) ∧
      (∀ off ∈ lagCandidates buf.length, madScore buf off ≤ (bestPair buf).2)) := by
  obtain ⟨prov, -, hall⟩ := bestFold_spec (madScore buf) (lagCandidates buf.length) (-1, 0)
  refine ⟨?_, ?_, ?_⟩
  · intro h
    rw [lightPitchEstimate, if_pos h]
  · intro h2
    by_cases hs : isSilent buf = true
    · rw [lightPitchEstimate, if_pos hs]
    · rw [lightPitchEstimate, if_neg hs, if_neg]
      rintro ⟨hlt, -⟩
      exact absurd hlt (not_lt.mpr h2)
  · intro hs h2
    have hprov : ∃ off ∈ lagCandidates buf.length,
        bestPair buf = ((off : ℤ), madScore buf off) := by
      rcases prov with hr | hok
      · rw [bestPair] at h2
        rw [hr] at h2
        norm_num at h2
      · exact hok
    obtain ⟨off, hoff, hr⟩ := hprov
    have hoff10 : 10 ≤ off := by
      rw [lagCandidates] at hoff
      exact (List.mem_range'_1.mp hoff).1
    have hpos : 0 < (bestPair buf).1 := by
      rw [hr]
      show (0 : ℤ) < (off : ℤ)
      exact_mod_cast (by omega : 0 < off)
    refine ⟨?_, ⟨off, hoff, by rw [hr], by rw [hr]⟩, hall⟩
    rw [lightPitchEstimate, if_neg (by simp [hs]), if_pos ⟨h2, hpos⟩]

/-- A small frame, periodic at lag 10, used as concrete input to the pitch
estimator: length 13, so the only candidate lag is 10. -/
def pitchFrame : List ℚ := [1, 1, 1, 0, 0, 0, 0, 0, 0, 0, 1, 1, 1]

/-- C6 counterexample: on `pitchFrame` with sample rate 101 the estimator
returns 10 = `Math.round (101 / 10)`, which differs from the exact frequency
`101 / bestLag = 101 / 10` the claim promises. -/
theorem c6_pitch_counterexample :
    lightPitchEstimate pitchFrame 101 = some 10 ∧
    bestPair pitchFrame = (10, 1) ∧
    ((10 : ℤ) : ℚ) ≠ 101 / ((10 : ℤ) : ℚ) := by
  refine ⟨?_, ?_, by norm_num⟩
  · norm_num [lightPitchEstimate, isSilent, sumSq, pitchFrame, bestPair, lagCandidates,
      madScore, List.range', List.range_succ, jsRound]
  · norm_num [bestPair, lagCandidates, madScore, pitchFrame, List.range', List.range_succ]

/-- C6 witness: the amended theorem applied to the concrete frame. -/
theorem c6_pitch_witness :
    lightPitchEstimate pitchFrame 101 = some (jsRound (101 / ((bestPair pitchFrame).1 : ℚ))) := by
  refine ((c6_pitch_estimator pitchFrame 101).2.2 ?_ ?_).1
  · norm_num [isSilent, sumSq, pitchFrame]
  · have hb : bestPair pitchFrame = (10, 1) := by
      norm_num [bestPair, lagCandidates, madScore, pitchFrame, List.range', List.range_succ]
    rw [hb]
    norm_num

end OralFeedback
